import Mathlib

/-!
Verification of the timebase-resampler and report-builder logic of
`composite-stimuli-features.py` and of the EEG loader `load_eeg.py`,
shallowly embedded over exact rationals.
-/

namespace ISC

/-- One-dimensional linear interpolation over a list of sample points,
embedding numpy's `arr_interp` for `np.interp(t, xp, fp)` on the sample list
`xp.zip fp` with the default left/right fill values.  A single sample point
always yields its value.  Otherwise, following numpy's search routine, a query
strictly above the last sample point takes the last value, then a query
strictly below the first takes the first value, and an interior query uses the
segment index found by numpy's linear scan — the exact code path for at most
four sample points, and the index its bisection finds whenever the sample
points are strictly increasing, which is every regime a theorem below uses —
returning the sample value on an exact hit or at the final index, and the
segment's linear interpolation otherwise. -/
def interp1 (t : ℚ) (ps : List (ℚ × ℚ)) : ℚ :=
  match ps with
  | [] => 0
  | p :: tail =>
      if tail = [] then p.2
      else if ((p :: tail).getD tail.length (0, 0)).1 < t then
        ((p :: tail).getD tail.length (0, 0)).2
      else if t < p.1 then p.2
      else
        let j := (tail.takeWhile (fun s => s.1 ≤ t)).length
        let pj := (p :: tail).getD j (0, 0)
        if j = tail.length then pj.2
        else if pj.1 = t then pj.2
        else
          let pj1 := (p :: tail).getD (j + 1) (0, 0)
          pj.2 + (pj1.2 - pj.2) * (t - pj.1) / (pj1.1 - pj.1)

/-- A parsed secondary CSV after dropping the literal `frame` column:
its timestamp column and its value columns (column-major). -/
structure SecondarySeries where
  timestamps : List ℚ
  columns : List (List ℚ)
deriving DecidableEq, Repr

/-- The failure modes `load_and_interpolate_to_reference` actually has:
`pandas.read_csv` raises `EmptyDataError` on an empty file, and the
`df.columns = ['timestamp'] + value_columns` assignment raises a length-mismatch
`ValueError` when the column count disagrees.  There is no `InputShapeError`
anywhere in the source, and monotonicity is never validated. -/
inductive ResampleError where
  | emptyDataError : ResampleError
  | columnLengthMismatch : ResampleError
deriving DecidableEq, Repr

/-- The result DataFrame of `load_and_interpolate_to_reference`:
the reference timestamps plus one interpolated column per value column. -/
structure ResampledTable where
  timestamps : List ℚ
  columns : List (List ℚ)
deriving DecidableEq, Repr

/-- Embedding of `load_and_interpolate_to_reference`: each value column of the
secondary series is interpolated (via `np.interp`) onto the reference
timestamps.  An empty secondary file fails at `read_csv`; a column-count
mismatch fails at the column-renaming assignment; nothing else is validated. -/
def load_and_interpolate_to_reference (reference_timestamps : List ℚ)
    (s : SecondarySeries) (numValueColumns : ℕ) :
    Except ResampleError ResampledTable :=
  if s.timestamps = [] then .error .emptyDataError
  else if s.columns.length ≠ numValueColumns then .error .columnLengthMismatch
  else .ok
    { timestamps := reference_timestamps
      columns := s.columns.map (fun col =>
        reference_timestamps.map (fun t => interp1 t (s.timestamps.zip col))) }

/-- Embedding of `np.diff`: successive differences of a list. -/
def npdiff : List ℚ → List ℚ
  | [] => []
  | [_] => []
  | a :: b :: rest => (b - a) :: npdiff (b :: rest)

/-- Embedding of `np.median`: middle element of the sorted list for odd length,
mean of the two middle elements for even length. -/
def npmedian (xs : List ℚ) : ℚ :=
  let s := xs.insertionSort (· ≤ ·)
  let n := xs.length
  if n = 0 then 0
  else if n % 2 = 1 then s.getD (n / 2) 0
  else (s.getD (n / 2 - 1) 0 + s.getD (n / 2) 0) / 2

/-- Python's `int()` applied to a rational: truncation toward zero. -/
def pyInt (q : ℚ) : ℤ :=
  if 0 ≤ q then ⌊q⌋ else ⌈q⌉

/-- Embedding of the report builder's moving-average window computation,
`window_size = int(5 / np.median(np.diff(composite_df['timestamp'])))`. -/
def window_size (timestamps : List ℚ) : ℤ :=
  pyInt (5 / npmedian (npdiff timestamps))

/-- A DataFrame whose first column is the timestamp: the value-column names and
the rows, each row a timestamp paired with its values. -/
structure DF where
  valueNames : List String
  rows : List (ℚ × List ℚ)
deriving DecidableEq, Repr

/-- Embedding of `a.merge(b, on='timestamp')` (pandas inner join on the
timestamp key): left columns then right non-key columns; for each left row, in
left order, one merged row per right row with an equal timestamp. -/
def mergeOn (a b : DF) : DF :=
  { valueNames := a.valueNames ++ b.valueNames
    rows := a.rows.flatMap (fun ra =>
      (b.rows.filter (fun rb => rb.1 = ra.1)).map (fun rb => (ra.1, ra.2 ++ rb.2))) }

/-- Header row of `df.to_csv(..., index=False)` for a `DF`: the timestamp
column followed by the value columns, in order. -/
def csvHeader (df : DF) : List String :=
  ("timestamp") :: df.valueNames

/-- The `stimuli` dict of `main`, in insertion order. -/
def stimuli : List (String × String) :=
  [("BangBangYouAreDead", "BangBangYouAreDead_SerialTrigInterval-1sec"),
   ("StoryCorps_Q&A", "StoryCorps_Q&A_SerialTrigInterval-1sec")]

/-- The output files `main` writes: for each stimulus, in order, one composite
CSV and one rendered chart image inside the output directory. -/
def mainWrites (out_dir : String) : List String :=
  stimuli.flatMap (fun st =>
    [out_dir ++ "/" ++ st.1 ++ "_composite_frame_level_analysis.csv",
     out_dir ++ "/" ++ st.1 ++ "_composite_time_series.png"])

/-- Looks up the value following a `--flag` token in an argument vector. -/
def getOptVal (flag : String) : List String → Option String
  | [] => none
  | [_] => none
  | a :: b :: rest => if a = flag then some b else getOptVal flag (b :: rest)

/-- Parsed command-line arguments of the composite-features script. -/
structure CliArgs where
  data_dir : String
  out_dir : String
deriving DecidableEq, Repr

/-- Embedding of the script's `ArgumentParser`: `--data_dir` is required,
`--out_dir` defaults to `./out`. -/
def parseCli (argv : List String) : Option CliArgs :=
  match getOptVal ("--data_dir") argv with
  | none => none
  | some d => some { data_dir := d, out_dir := (getOptVal ("--out_dir") argv).getD ("./out") }

/-- Embedding of the script's `if __name__ == "__main__"` block: it builds the
argument parser and binds `args = parser.parse_args()`, and the block ends
there — `main` is never invoked, so the script performs no file writes on any
argument vector. -/
def scriptWrites (argv : List String) : List String :=
  match parseCli argv with
  | none => []
  | some _ => []

/-- The four channels `load_eeg` retags as electro-oculogram. -/
def eog_channel_names : List String :=
  ["HL_EOG", "HR_EOG", "VA_EOG", "VB_EOG"]

/-- Python's 02d-format of a subject id: zero-padded to two digits. -/
def pad2 (n : ℕ) : String :=
  if n < 10 then ("0") ++ toString n else toString n

/-- The recording path the loader builds from the file code, padded subject id
and stimulus name, under the data directory, with a .set extension. -/
def eeg_data_path (file_code : ℕ) (subject_id : ℕ) (stimulus : String) : String :=
  ("data/") ++ toString file_code ++ ("_HS1") ++ pad2 subject_id ++ ("_") ++ stimulus ++ (".set")

/-- A loaded recording: its path and the channels retagged as EOG. -/
structure RawEEG where
  path : String
  eogChannels : List String
deriving DecidableEq, Repr

/-- The failure mode of `load_eeg`: the `ValueError` raised for a stimulus name
other than the two fixed literals, the loader's only unknown-stimulus failure. -/
inductive LoadEegError where
  | invalidStimulusName : LoadEegError
deriving DecidableEq, Repr

/-- Embedding of `load_eeg`: the returned recording together with the trace of
files accessed.  The unknown-stimulus raise happens in the branch before the
data path is even built, so no file is accessed on that path. -/
def load_eeg (subject_id : ℕ) (stimulus : String) :
    Except LoadEegError RawEEG × List String :=
  if stimulus = "StoryCorps_Q&A" then
    (Except.ok { path := eeg_data_path 71 subject_id stimulus
                 eogChannels := eog_channel_names },
     [eeg_data_path 71 subject_id stimulus])
  else if stimulus = "BangBangYouAreDead" then
    (Except.ok { path := eeg_data_path 72 subject_id stimulus
                 eogChannels := eog_channel_names },
     [eeg_data_path 72 subject_id stimulus])
  else (Except.error LoadEegError.invalidStimulusName, [])

/-! ## Lemmas about the interpolation kernel -/

/-- The length of a `takeWhile` prefix, characterized by the predicate holding
before position `k` and failing at `k` (or `k` exhausting the list). -/
theorem takeWhile_length_of (q : ℚ × ℚ → Bool) :
    ∀ (l : List (ℚ × ℚ)) (k : ℕ) (hk : k ≤ l.length),
    (∀ (m : ℕ) (hm : m < k), q (l.get ⟨m, lt_of_lt_of_le hm hk⟩) = true) →
    (k = l.length ∨ ∀ hk2 : k < l.length, q (l.get ⟨k, hk2⟩) = false) →
    (l.takeWhile q).length = k := by
  intro l
  induction l with
  | nil =>
    intro k hk _ _
    simp only [List.length_nil, Nat.le_zero] at hk
    simp [hk]
  | cons a l ih =>
    intro k hk hall hstop
    cases k with
    | zero =>
      rcases hstop with h | h
      · simp at h
      · have hfa := h (by simp)
        simp only [List.get] at hfa
        simp [List.takeWhile_cons, hfa]
    | succ k' =>
      have hqa : q a = true := hall 0 (by omega)
      rw [List.takeWhile_cons, if_pos hqa]
      simp only [List.length_cons]
      have hk' : k' ≤ l.length := by simpa using hk
      rw [ih k' hk' (fun m hm => hall (m + 1) (by omega)) ?_]
      rcases hstop with h | h
      · left
        simpa using h
      · right
        intro hk2
        exact h (by simpa using hk2)

/-- Weak monotonicity of the sample points of a strictly increasing list. -/
theorem pairwise_get_le (ps : List (ℚ × ℚ))
    (hmono : List.Pairwise (fun a b : ℚ × ℚ => a.1 < b.1) ps)
    (a b : ℕ) (hab : a ≤ b) (hb : b < ps.length) :
    (ps.get ⟨a, lt_of_le_of_lt hab hb⟩).1 ≤ (ps.get ⟨b, hb⟩).1 := by
  rcases eq_or_lt_of_le hab with rfl | h
  · exact le_refl _
  · exact le_of_lt (List.pairwise_iff_get.mp hmono ⟨a, lt_of_le_of_lt hab hb⟩ ⟨b, hb⟩ h)

/-- Linear interpolation evaluated at the right endpoint of a segment. -/
theorem lerp_endpoint (xi yi xi1 yi1 : ℚ) (h : xi < xi1) :
    yi + (yi1 - yi) * (xi1 - xi) / (xi1 - xi) = yi1 := by
  rw [mul_div_assoc, div_self (by linarith), mul_one]
  ring

/-- A query point at or before the first sample point of a strictly increasing
sample list takes the first value. -/
theorem interp1_head_get (t : ℚ) (ps : List (ℚ × ℚ))
    (hmono : List.Pairwise (fun a b : ℚ × ℚ => a.1 < b.1) ps)
    (h0 : 0 < ps.length)
    (h : t ≤ (ps.get ⟨0, h0⟩).1) : interp1 t ps = (ps.get ⟨0, h0⟩).2 := by
  cases ps with
  | nil => simp at h0
  | cons p tail =>
    simp only [List.get] at h ⊢
    by_cases htne : tail = []
    · subst htne
      simp [interp1]
    · have hlt0 : 0 < tail.length := List.length_pos.mpr htne
      have htlen : tail.length < (p :: tail).length := by simp
      have hgD : (p :: tail).getD tail.length (0, 0) = (p :: tail).get ⟨tail.length, htlen⟩ := by
        rw [List.getD_eq_getElem _ _ htlen, List.get_eq_getElem]
      have hple : p.1 ≤ ((p :: tail).get ⟨tail.length, htlen⟩).1 :=
        pairwise_get_le _ hmono 0 tail.length (by omega) htlen
      show interp1 t (p :: tail) = p.2
      simp only [interp1]
      rw [if_neg htne, hgD, if_neg (not_lt.mpr (le_trans h hple))]
      by_cases hlt : t < p.1
      · rw [if_pos hlt]
      · rw [if_neg hlt]
        have hteq : t = p.1 := le_antisymm h (by linarith)
        have hj : (tail.takeWhile (fun s => s.1 ≤ t)).length = 0 := by
          apply takeWhile_length_of _ tail 0 (by omega) (fun m hm => by omega)
          right
          intro hk2
          have h01 : p.1 < (tail.get ⟨0, hk2⟩).1 := by
            have := List.pairwise_iff_get.mp hmono ⟨0, by omega⟩ ⟨1, by simpa using hk2⟩
              (Fin.mk_lt_mk.mpr (by omega))
            simpa [List.get] using this
          simp only [decide_eq_false_iff_not, not_le]
          rw [hteq]
          exact h01
        simp only [hj, List.getD_cons_zero]
        rw [if_neg (by omega), if_pos hteq.symm]

/-- A query point strictly after every sample point takes the last value. -/
theorem interp1_last_get (t : ℚ) (ps : List (ℚ × ℚ)) (h0 : 0 < ps.length)
    (hall : ∀ p ∈ ps, p.1 < t) :
    interp1 t ps = (ps.get ⟨ps.length - 1, by omega⟩).2 := by
  cases ps with
  | nil => simp at h0
  | cons p tail =>
    by_cases htne : tail = []
    · subst htne
      simp [interp1]
    · have htlen : tail.length < (p :: tail).length := by simp
      have hgD : (p :: tail).getD tail.length (0, 0) = (p :: tail).get ⟨tail.length, htlen⟩ := by
        rw [List.getD_eq_getElem _ _ htlen, List.get_eq_getElem]
      have hmem : (p :: tail).get ⟨tail.length, htlen⟩ ∈ p :: tail := List.get_mem _ _ _
      simp only [interp1]
      rw [if_neg htne, hgD, if_pos (hall _ hmem)]
      rfl

/-- A query point bracketed by samples `i` and `i + 1` of a strictly increasing
sample list takes the linear interpolation of that segment. -/
theorem interp1_bracket (t : ℚ) (ps : List (ℚ × ℚ))
    (hmono : List.Pairwise (fun a b : ℚ × ℚ => a.1 < b.1) ps)
    (i : ℕ) (h1 : i + 1 < ps.length)
    (hlo : (ps.get ⟨i, Nat.lt_of_succ_lt h1⟩).1 ≤ t)
    (hhi : t ≤ (ps.get ⟨i + 1, h1⟩).1) :
    interp1 t ps =
      (ps.get ⟨i, Nat.lt_of_succ_lt h1⟩).2 +
        ((ps.get ⟨i + 1, h1⟩).2 - (ps.get ⟨i, Nat.lt_of_succ_lt h1⟩).2) *
          (t - (ps.get ⟨i, Nat.lt_of_succ_lt h1⟩).1) /
          ((ps.get ⟨i + 1, h1⟩).1 - (ps.get ⟨i, Nat.lt_of_succ_lt h1⟩).1) := by
  cases ps with
  | nil => simp at h1
  | cons p tail =>
    have htne : tail ≠ [] := by
      intro hcontra
      subst hcontra
      simp at h1
    have hi1 : i + 1 ≤ tail.length := by
      simp only [List.length_cons] at h1
      omega
    have htlen : tail.length < (p :: tail).length := by simp
    have hgD : ∀ (m : ℕ) (hm : m < (p :: tail).length),
        (p :: tail).getD m (0, 0) = (p :: tail).get ⟨m, hm⟩ := by
      intro m hm
      rw [List.getD_eq_getElem _ _ hm, List.get_eq_getElem]
    have htg : ∀ (m : ℕ) (hm : m < tail.length),
        tail.get ⟨m, hm⟩ = (p :: tail).get ⟨m + 1, by simpa using Nat.succ_lt_succ hm⟩ := by
      intro m hm
      rfl
    have hstrict : ∀ (a b : ℕ) (ha : a < (p :: tail).length) (hb : b < (p :: tail).length),
        a < b → (((p :: tail).get ⟨a, ha⟩).1 < ((p :: tail).get ⟨b, hb⟩).1) :=
      fun a b ha hb hab =>
        List.pairwise_iff_get.mp hmono ⟨a, ha⟩ ⟨b, hb⟩ (Fin.mk_lt_mk.mpr hab)
    have hle := pairwise_get_le _ hmono
    simp only [interp1]
    rw [if_neg htne, hgD tail.length htlen,
      if_neg (not_lt.mpr (le_trans hhi (hle (i + 1) tail.length hi1 htlen))),
      if_neg (show ¬ t < p.1 from not_lt.mpr (le_trans (hle 0 i (by omega) (by omega)) hlo))]
    rcases eq_or_lt_of_le hhi with heq | hltt
    · have hj : (tail.takeWhile (fun s => s.1 ≤ t)).length = i + 1 := by
        apply takeWhile_length_of _ tail (i + 1) (by omega) ?_ ?_
        · intro m hm
          have hm1 : (tail.get ⟨m, by omega⟩).1 ≤ t := by
            rw [htg m (by omega), heq]
            exact hle (m + 1) (i + 1) (by omega) h1
          simpa using hm1
        · by_cases hag : i + 1 = tail.length
          · left
            exact hag
          · right
            intro hk2
            have hm2 : t < (tail.get ⟨i + 1, hk2⟩).1 := by
              rw [htg (i + 1) hk2, heq]
              exact hstrict (i + 1) (i + 2) h1 (by omega) (by omega)
            simpa using not_le.mpr hm2
      have hxx : ((p :: tail).get ⟨i, Nat.lt_of_succ_lt h1⟩).1 <
          ((p :: tail).get ⟨i + 1, h1⟩).1 := hstrict i (i + 1) (Nat.lt_of_succ_lt h1) h1 (by omega)
      simp only [hj]
      by_cases hag : i + 1 = tail.length
      · rw [if_pos hag, hgD (i + 1) h1, heq,
          lerp_endpoint (((p :: tail).get ⟨i, Nat.lt_of_succ_lt h1⟩).1)
            (((p :: tail).get ⟨i, Nat.lt_of_succ_lt h1⟩).2)
            (((p :: tail).get ⟨i + 1, h1⟩).1) (((p :: tail).get ⟨i + 1, h1⟩).2) hxx]
      · rw [if_neg hag, hgD (i + 1) h1, if_pos heq.symm, heq,
          lerp_endpoint (((p :: tail).get ⟨i, Nat.lt_of_succ_lt h1⟩).1)
            (((p :: tail).get ⟨i, Nat.lt_of_succ_lt h1⟩).2)
            (((p :: tail).get ⟨i + 1, h1⟩).1) (((p :: tail).get ⟨i + 1, h1⟩).2) hxx]
    · have hj : (tail.takeWhile (fun s => s.1 ≤ t)).length = i := by
        apply takeWhile_length_of _ tail i (by omega) ?_ ?_
        · intro m hm
          have hm1 : (tail.get ⟨m, by omega⟩).1 ≤ t := by
            rw [htg m (by omega)]
            exact le_trans (hle (m + 1) i (by omega) (by omega)) hlo
          simpa using hm1
        · right
          intro hk2
          have hm2 : t < (tail.get ⟨i, hk2⟩).1 := by
            rw [htg i hk2]
            exact hltt
          simpa using not_le.mpr hm2
      simp only [hj]
      rw [if_neg (show ¬ i = tail.length by omega), hgD i (Nat.lt_of_succ_lt h1),
        hgD (i + 1) h1]
      by_cases hpt : ((p :: tail).get ⟨i, Nat.lt_of_succ_lt h1⟩).1 = t
      · rw [if_pos hpt, ← hpt]
        simp
      · rw [if_neg hpt]

/-- Zipping a strictly increasing timestamp list with a value column gives a
sample list whose first components are strictly increasing. -/
theorem pairwise_fst_zip (ts : List ℚ) (col : List ℚ)
    (h : List.Pairwise (fun a b : ℚ => a < b) ts) :
    List.Pairwise (fun a b : ℚ × ℚ => a.1 < b.1) (ts.zip col) := by
  induction ts generalizing col with
  | nil => simp
  | cons a ts ih =>
    cases col with
    | nil => simp
    | cons v col =>
      rw [List.pairwise_cons] at h
      rw [List.zip_cons_cons, List.pairwise_cons]
      constructor
      · intro b hb
        obtain ⟨b1, b2⟩ := b
        exact h.1 b1 (List.of_mem_zip hb).1
      · exact ih col h.2

/-- Success case of the resampler: the output carries the reference timestamps
and one interpolated column per secondary value column. -/
theorem load_ok_columns (R : List ℚ) (s : SecondarySeries) (k : ℕ) (out : ResampledTable)
    (hout : load_and_interpolate_to_reference R s k = Except.ok out) :
    out.timestamps = R ∧
    out.columns = s.columns.map (fun col =>
      R.map (fun t => interp1 t (s.timestamps.zip col))) := by
  unfold load_and_interpolate_to_reference at hout
  split at hout
  · exact absurd hout (by simp)
  · split at hout
    · exact absurd hout (by simp)
    · rw [Except.ok.injEq] at hout
      constructor <;> rw [← hout]

/-- Success of the resampler forces a non-empty secondary timestamp column. -/
theorem load_ok_nonempty (R : List ℚ) (s : SecondarySeries) (k : ℕ) (out : ResampledTable)
    (hout : load_and_interpolate_to_reference R s k = Except.ok out) :
    s.timestamps ≠ [] := by
  unfold load_and_interpolate_to_reference at hout
  split at hout
  · exact absurd hout (by simp)
  · intro hcontra
    simp_all

/-- Indexing with a default through a map over columns. -/
theorem getD_map_col (f : List ℚ → List ℚ) (l : List (List ℚ)) (c : ℕ) (hc : c < l.length) :
    (l.map f).getD c [] = f (l.getD c []) := by
  rw [List.getD_eq_getElem _ _ (by simpa using hc), List.getD_eq_getElem _ _ hc, List.getElem_map]

/-- Indexing with a default through a map over rationals. -/
theorem getD_map_rat (g : ℚ → ℚ) (l : List ℚ) (j : ℕ) (hj : j < l.length) :
    (l.map g).getD j 0 = g (l.getD j 0) := by
  rw [List.getD_eq_getElem _ _ (by simpa using hj), List.getD_eq_getElem _ _ hj, List.getElem_map]

/-- Every element of a strictly increasing list is at most its last element. -/
theorem pairwise_le_getD_last (ts : List ℚ)
    (hmono : List.Pairwise (fun a b : ℚ => a < b) ts) :
    ∀ x ∈ ts, x ≤ ts.getD (ts.length - 1) 0 := by
  intro x hx
  obtain ⟨⟨m, hm⟩, hget⟩ := List.mem_iff_get.mp hx
  have hlast : ts.getD (ts.length - 1) 0 = ts.get ⟨ts.length - 1, by omega⟩ := by
    rw [List.getD_eq_getElem _ _ (by omega)]
    rfl
  rw [hlast, ← hget]
  rcases Nat.lt_or_ge m (ts.length - 1) with hlt | hge
  · exact le_of_lt (List.pairwise_iff_get.mp hmono ⟨m, hm⟩ ⟨ts.length - 1, by omega⟩ hlt)
  · have : m = ts.length - 1 := by omega
    subst this
    exact le_refl _

/-- The rows of `b` matching a key `t` are counted by the key column. -/
theorem filter_key_length (brows : List (ℚ × List ℚ)) (t : ℚ) :
    (brows.filter (fun rb => rb.1 = t)).length = (brows.map Prod.fst).count t := by
  induction brows with
  | nil => rfl
  | cons rb brows ih =>
    by_cases h : rb.1 = t
    · simp [List.filter_cons, List.count_cons, h, ih]
    · simp [List.filter_cons, List.count_cons, h, ih]

/-- When every left key matches exactly one right row, the merged key column is
the left key column. -/
theorem flatMap_rows_fst (arows brows : List (ℚ × List ℚ))
    (h : ∀ ra ∈ arows, (brows.filter (fun rb => rb.1 = ra.1)).length = 1) :
    (arows.flatMap (fun ra => (brows.filter (fun rb => rb.1 = ra.1)).map
      (fun rb => (ra.1, ra.2 ++ rb.2)))).map Prod.fst = arows.map Prod.fst := by
  induction arows with
  | nil => rfl
  | cons ra arows ih =>
    rw [List.flatMap_cons, List.map_append, ih (fun x hx => h x (by simp [hx]))]
    rw [List.map_map]
    have hcomp : (Prod.fst ∘ fun rb : ℚ × List ℚ => (ra.1, ra.2 ++ rb.2)) =
        fun _ => ra.1 := rfl
    rw [hcomp, List.map_const', h ra (by simp)]
    rfl

/-- Merging two frames that carry the same duplicate-free key column preserves
the key column exactly. -/
theorem mergeOn_keys (a b : DF) (R : List ℚ) (hA : a.rows.map Prod.fst = R)
    (hB : b.rows.map Prod.fst = R) (hnd : R.Nodup) :
    (mergeOn a b).rows.map Prod.fst = R := by
  rw [← hA]
  show (a.rows.flatMap _).map Prod.fst = _
  apply flatMap_rows_fst
  intro ra hra
  rw [filter_key_length, hB]
  apply List.count_eq_one_of_mem hnd
  rw [← hA]
  exact List.mem_map.mpr ⟨ra, hra, rfl⟩

/-! ## Claim theorems -/

/-- C1: for every strictly increasing reference sequence and every strictly
increasing secondary series whose samples `i` and `i + 1` bracket a reference
timestamp, the resampler's output value there, for each value column, is the
linear interpolation of the two bracketing samples; and on
R = 0, 1/2, 1, 3/2, 2 with S = (0, 10), (1, 20), (2, 10) the interpolated
column is 10, 15, 20, 15, 10. -/
theorem c1_bracket_interpolation :
    (∀ (R : List ℚ) (s : SecondarySeries) (k : ℕ) (out : ResampledTable),
      load_and_interpolate_to_reference R s k = Except.ok out →
      List.Pairwise (fun a b : ℚ => a < b) s.timestamps →
      (∀ col ∈ s.columns, col.length = s.timestamps.length) →
      ∀ (c j i : ℕ), c < s.columns.length → j < R.length →
        i + 1 < s.timestamps.length →
        s.timestamps.getD i 0 ≤ R.getD j 0 →
        R.getD j 0 ≤ s.timestamps.getD (i + 1) 0 →
        (out.columns.getD c []).getD j 0 =
          (s.columns.getD c []).getD i 0 +
            ((s.columns.getD c []).getD (i + 1) 0 - (s.columns.getD c []).getD i 0) *
              (R.getD j 0 - s.timestamps.getD i 0) /
              (s.timestamps.getD (i + 1) 0 - s.timestamps.getD i 0)) ∧
    load_and_interpolate_to_reference [0, 1/2, 1, 3/2, 2]
        { timestamps := [0, 1, 2], columns := [[10, 20, 10]] } 1 =
      Except.ok { timestamps := [0, 1/2, 1, 3/2, 2], columns := [[10, 15, 20, 15, 10]] } := by
  constructor
  · intro R s k out hout hmono hwf c j i hc hj hi hlo hhi
    obtain ⟨-, hcols⟩ := load_ok_columns R s k out hout
    set col := s.columns.getD c [] with hcol
    have hmem : col ∈ s.columns := by
      rw [hcol, List.getD_eq_getElem _ _ hc]
      exact List.getElem_mem hc
    have hclen : col.length = s.timestamps.length := hwf col hmem
    have hzlen : (s.timestamps.zip col).length = s.timestamps.length := by
      rw [List.length_zip, hclen, min_self]
    have hzi : i + 1 < (s.timestamps.zip col).length := by omega
    have hgz : ∀ (m : ℕ) (hm : m < (s.timestamps.zip col).length),
        (s.timestamps.zip col).get ⟨m, hm⟩ = (s.timestamps.getD m 0, col.getD m 0) := by
      intro m hm
      rw [List.get_eq_getElem, List.getElem_zip]
      rw [List.getD_eq_getElem _ _ (by omega), List.getD_eq_getElem _ _ (by omega)]
    rw [hcols, getD_map_col _ _ _ hc, ← hcol, getD_map_rat _ _ _ hj]
    rw [interp1_bracket (R.getD j 0) (s.timestamps.zip col)
          (pairwise_fst_zip _ _ hmono) i hzi
          (by rw [hgz i (Nat.lt_of_succ_lt hzi)]; exact hlo)
          (by rw [hgz (i + 1) hzi]; exact hhi)]
    rw [hgz i (Nat.lt_of_succ_lt hzi), hgz (i + 1) hzi]
  · unfold load_and_interpolate_to_reference
    rw [if_neg (by simp), if_neg (by simp)]
    norm_num [interp1, List.cons_ne_nil]

/-- C1 witness: on the worked example, the output value at reference timestamp
1/2 (bracketed by the secondary samples at 0 and 1) is the linear
interpolation 10 + (20 - 10) * (1/2 - 0) / (1 - 0) = 15. -/
theorem c1_bracket_interpolation_witness :
    (({ timestamps := [0, 1/2, 1, 3/2, 2], columns := [[10, 15, 20, 15, 10]] } :
        ResampledTable).columns.getD 0 []).getD 1 0 =
      (([[10, 20, 10]] : List (List ℚ)).getD 0 []).getD 0 0 +
        ((([[10, 20, 10]] : List (List ℚ)).getD 0 []).getD 1 0 -
            (([[10, 20, 10]] : List (List ℚ)).getD 0 []).getD 0 0) *
          (([0, 1/2, 1, 3/2, 2] : List ℚ).getD 1 0 - ([0, 1, 2] : List ℚ).getD 0 0) /
          (([0, 1, 2] : List ℚ).getD 1 0 - ([0, 1, 2] : List ℚ).getD 0 0) :=
  c1_bracket_interpolation.1 [0, 1/2, 1, 3/2, 2]
    { timestamps := [0, 1, 2], columns := [[10, 20, 10]] } 1
    { timestamps := [0, 1/2, 1, 3/2, 2], columns := [[10, 15, 20, 15, 10]] }
    (by unfold load_and_interpolate_to_reference
        rw [if_neg (by simp), if_neg (by simp)]
        norm_num [interp1, List.cons_ne_nil])
    (by norm_num [List.pairwise_cons])
    (by simp)
    0 1 0 (by norm_num) (by norm_num) (by norm_num)
    (by norm_num) (by norm_num)

/-- C2: for every reference timestamp at or before the secondary series' first
timestamp the output value is the first secondary value, and for every
reference timestamp after the last secondary timestamp it is the last
secondary value (flat extrapolation, never missing); and on R = 0, 1, 2 with
S = (1/2, 5), (3/2, 7) the interpolated column is 5, 6, 7, clamped at both
ends. -/
theorem c2_flat_extrapolation :
    (∀ (R : List ℚ) (s : SecondarySeries) (k : ℕ) (out : ResampledTable),
      load_and_interpolate_to_reference R s k = Except.ok out →
      List.Pairwise (fun a b : ℚ => a < b) s.timestamps →
      (∀ col ∈ s.columns, col.length = s.timestamps.length) →
      ∀ (c j : ℕ), c < s.columns.length → j < R.length →
        (R.getD j 0 ≤ s.timestamps.getD 0 0 →
          (out.columns.getD c []).getD j 0 = (s.columns.getD c []).getD 0 0) ∧
        (s.timestamps.getD (s.timestamps.length - 1) 0 < R.getD j 0 →
          (out.columns.getD c []).getD j 0 =
            (s.columns.getD c []).getD (s.timestamps.length - 1) 0)) ∧
    load_and_interpolate_to_reference [0, 1, 2]
        { timestamps := [1/2, 3/2], columns := [[5, 7]] } 1 =
      Except.ok { timestamps := [0, 1, 2], columns := [[5, 6, 7]] } := by
  constructor
  · intro R s k out hout hmono hwf c j hc hj
    have hne := load_ok_nonempty R s k out hout
    have hlen0 : 0 < s.timestamps.length := List.length_pos.mpr hne
    obtain ⟨-, hcols⟩ := load_ok_columns R s k out hout
    set col := s.columns.getD c [] with hcol
    have hmem : col ∈ s.columns := by
      rw [hcol, List.getD_eq_getElem _ _ hc]
      exact List.getElem_mem hc
    have hclen : col.length = s.timestamps.length := hwf col hmem
    have hzlen : (s.timestamps.zip col).length = s.timestamps.length := by
      rw [List.length_zip, hclen, min_self]
    have hgz : ∀ (m : ℕ) (hm : m < (s.timestamps.zip col).length),
        (s.timestamps.zip col).get ⟨m, hm⟩ = (s.timestamps.getD m 0, col.getD m 0) := by
      intro m hm
      rw [List.get_eq_getElem, List.getElem_zip]
      rw [List.getD_eq_getElem _ _ (by omega), List.getD_eq_getElem _ _ (by omega)]
    have hval : (out.columns.getD c []).getD j 0 =
        interp1 (R.getD j 0) (s.timestamps.zip col) := by
      rw [hcols, getD_map_col _ _ _ hc, ← hcol, getD_map_rat _ _ _ hj]
    have h0 : (0:ℕ) < (s.timestamps.zip col).length := by omega
    constructor
    · intro hbefore
      rw [hval, interp1_head_get _ _ (pairwise_fst_zip _ _ hmono) h0
          (by rw [hgz 0 h0]; exact hbefore), hgz 0 h0]
    · intro hafter
      rw [hval, interp1_last_get _ _ h0 ?_]
      · rw [hgz ((s.timestamps.zip col).length - 1) (by omega), hzlen]
      · intro p hp
        have hmem1 := (List.of_mem_zip hp).1
        exact lt_of_le_of_lt (pairwise_le_getD_last s.timestamps hmono p.1 hmem1) hafter
  · unfold load_and_interpolate_to_reference
    rw [if_neg (by simp), if_neg (by simp)]
    norm_num [interp1, List.cons_ne_nil]

/-- C2 witness: on the worked example, the output at reference timestamp 0
(before the secondary range) is the first secondary value 5, and the output at
reference timestamp 2 (after the secondary range) is the last secondary
value 7. -/
theorem c2_flat_extrapolation_witness :
    (({ timestamps := [0, 1, 2], columns := [[5, 6, 7]] } :
        ResampledTable).columns.getD 0 []).getD 0 0 =
      (([[5, 7]] : List (List ℚ)).getD 0 []).getD 0 0 ∧
    (({ timestamps := [0, 1, 2], columns := [[5, 6, 7]] } :
        ResampledTable).columns.getD 0 []).getD 2 0 =
      (([[5, 7]] : List (List ℚ)).getD 0 []).getD 1 0 :=
  ⟨(c2_flat_extrapolation.1 [0, 1, 2]
      { timestamps := [1/2, 3/2], columns := [[5, 7]] } 1
      { timestamps := [0, 1, 2], columns := [[5, 6, 7]] }
      (by unfold load_and_interpolate_to_reference
          rw [if_neg (by simp), if_neg (by simp)]
          norm_num [interp1, List.cons_ne_nil])
      (by norm_num [List.pairwise_cons])
      (by simp)
      0 0 (by norm_num) (by norm_num)).1 (by norm_num),
   (c2_flat_extrapolation.1 [0, 1, 2]
      { timestamps := [1/2, 3/2], columns := [[5, 7]] } 1
      { timestamps := [0, 1, 2], columns := [[5, 6, 7]] }
      (by unfold load_and_interpolate_to_reference
          rw [if_neg (by simp), if_neg (by simp)]
          norm_num [interp1, List.cons_ne_nil])
      (by norm_num [List.pairwise_cons])
      (by simp)
      0 2 (by norm_num) (by norm_num)).2 (by norm_num)⟩

/-- C3 counterexample: a secondary series whose timestamps 1, 0 are not
monotonically increasing is accepted by the resampler without any error — it
returns a meaningless result table (query 0 falls below the first sample
point 1 and takes its value 10; query 1 exceeds the last sample point 0 and
takes the last value 20) — so the claimed `InputShapeError` equivalence fails
on the non-monotonic condition. -/
theorem c3_counterexample :
    load_and_interpolate_to_reference [0, 1]
        { timestamps := [1, 0], columns := [[10, 20]] } 1 =
      Except.ok { timestamps := [0, 1], columns := [[10, 20]] } := by
  unfold load_and_interpolate_to_reference
  rw [if_neg (by simp), if_neg (by simp)]
  norm_num [interp1, List.cons_ne_nil]

/-- C3 amended: the resampler fails exactly when the secondary series is empty
(a `pandas` parse error) or the column count disagrees with the requested
value-column names (a length-mismatch `ValueError`); the failures are generic
library errors, not a dedicated `InputShapeError`, and timestamps that are not
monotonically increasing are never validated and raise nothing. -/
theorem c3_failure_conditions (R : List ℚ) (s : SecondarySeries) (k : ℕ) :
    (∃ e, load_and_interpolate_to_reference R s k = Except.error e) ↔
      s.timestamps = [] ∨ s.columns.length ≠ k := by
  unfold load_and_interpolate_to_reference
  split
  · simp_all
  · split
    · simp_all
    · simp_all

/-- C4: whenever the resampler succeeds, the output table carries exactly the
reference timestamps, in order, and every output column has one value per
reference timestamp, regardless of the secondary series' length or range. -/
theorem c4_row_count_and_order (R : List ℚ) (s : SecondarySeries) (k : ℕ)
    (out : ResampledTable)
    (hout : load_and_interpolate_to_reference R s k = Except.ok out) :
    out.timestamps = R ∧ ∀ col ∈ out.columns, col.length = R.length := by
  obtain ⟨hts, hcols⟩ := load_ok_columns R s k out hout
  refine ⟨hts, ?_⟩
  intro col hcol
  rw [hcols] at hcol
  obtain ⟨src, hsrc, rfl⟩ := List.mem_map.mp hcol
  exact List.length_map _ _

/-- C4 witness: on the example with a three-row reference and a two-sample
secondary series, the output timestamps equal the reference and the output
column has three values. -/
theorem c4_row_count_and_order_witness :
    ({ timestamps := [0, 1, 2], columns := [[5, 6, 7]] } :
        ResampledTable).timestamps = [0, 1, 2] ∧
    ∀ col ∈ ({ timestamps := [0, 1, 2], columns := [[5, 6, 7]] } :
        ResampledTable).columns, col.length = ([0, 1, 2] : List ℚ).length :=
  c4_row_count_and_order [0, 1, 2]
    { timestamps := [1/2, 3/2], columns := [[5, 7]] } 1
    { timestamps := [0, 1, 2], columns := [[5, 6, 7]] }
    (by unfold load_and_interpolate_to_reference
        rw [if_neg (by simp), if_neg (by simp)]
        norm_num [interp1, List.cons_ne_nil])

/-- C5 counterexample: for reference timestamps 0, 3, 6 the median interval is
3 and the code computes `int(5 / 3) = 1` while `round(5 / 3) = 2`; and for
reference timestamps 0, 6, 12 the computed window is 0, below the claimed
one-sample minimum. -/
theorem c5_counterexample :
    window_size [0, 3, 6] ≠ round ((5:ℚ) / npmedian (npdiff [0, 3, 6])) ∧
    window_size [0, 6, 12] < 1 := by
  norm_num [window_size, npmedian, npdiff, pyInt, round_eq,
    List.insertionSort, List.orderedInsert]

/-- C5 amended: the moving-average window length equals the floor (Python
`int` truncation, for the positive intervals of an increasing timebase) of
5 divided by the median inter-sample interval — not the rounding — and no
one-sample minimum is enforced, so it is 0 whenever the median interval
exceeds 5 seconds. -/
theorem c5_window_floor (ts : List ℚ) (h : 0 < npmedian (npdiff ts)) :
    window_size ts = ⌊(5:ℚ) / npmedian (npdiff ts)⌋ := by
  unfold window_size pyInt
  rw [if_pos (le_of_lt (div_pos (by norm_num) h))]

/-- C5 witness: the reference timebase 0, 3, 6 has positive median interval 3,
and the computed window equals the floor of 5/3, namely 1. -/
theorem c5_window_floor_witness :
    window_size [0, 3, 6] = ⌊(5:ℚ) / npmedian (npdiff [0, 3, 6])⌋ :=
  c5_window_floor [0, 3, 6]
    (by norm_num [npmedian, npdiff, List.insertionSort, List.orderedInsert])

/-- C6 counterexample: the timebase 0, 3/2, 3 has exactly half the median
interval of the timebase 0, 3, 6, yet its computed window length is 3, not
double the original window length 1 — the truncation breaks exact doubling. -/
theorem c6_counterexample :
    npmedian (npdiff [0, 3/2, 3]) = npmedian (npdiff [0, 3, 6]) / 2 ∧
    window_size [0, 3/2, 3] ≠ 2 * window_size [0, 3, 6] := by
  norm_num [window_size, npmedian, npdiff, pyInt,
    List.insertionSort, List.orderedInsert]

/-- C6 amended: halving the median inter-sample interval (doubling the sample
rate) at least doubles the computed window length and at most exceeds the
double by one sample, the slack forced by the integer truncation. -/
theorem c6_halving_at_least_doubles (ts ts2 : List ℚ)
    (hpos : 0 < npmedian (npdiff ts))
    (hhalf : npmedian (npdiff ts2) = npmedian (npdiff ts) / 2) :
    2 * window_size ts ≤ window_size ts2 ∧
      window_size ts2 ≤ 2 * window_size ts + 1 := by
  set m := npmedian (npdiff ts) with hm
  have hpos2 : 0 < m / 2 := by positivity
  have hq : (0:ℚ) ≤ 5 / m := le_of_lt (div_pos (by norm_num) hpos)
  have hq2 : (0:ℚ) ≤ 5 / (m / 2) := le_of_lt (div_pos (by norm_num) hpos2)
  unfold window_size pyInt
  rw [hhalf, ← hm, if_pos hq, if_pos hq2]
  have hdouble : (5:ℚ) / (m / 2) = 2 * (5 / m) := by
    field_simp
    ring
  rw [hdouble]
  constructor
  · apply Int.le_floor.mpr
    push_cast
    have := Int.floor_le ((5:ℚ) / m)
    linarith
  · apply Int.lt_add_one_iff.mp
    apply Int.floor_lt.mpr
    push_cast
    have := Int.lt_floor_add_one ((5:ℚ) / m)
    linarith

/-- C6 witness: halving the median interval of the timebase 0, 3, 6 (window 1)
gives the timebase 0, 3/2, 3, whose window 3 lies between 2 and 2 + 1. -/
theorem c6_halving_at_least_doubles_witness :
    2 * window_size [0, 3, 6] ≤ window_size [0, 3/2, 3] ∧
      window_size [0, 3/2, 3] ≤ 2 * window_size [0, 3, 6] + 1 :=
  c6_halving_at_least_doubles [0, 3, 6] [0, 3/2, 3]
    (by norm_num [npmedian, npdiff, List.insertionSort, List.orderedInsert])
    (by norm_num [npmedian, npdiff, List.insertionSort, List.orderedInsert])

/-- C7: when the luminance, amplitude and loudness frames all carry the same
strictly increasing timestamp column, merging them by timestamp equality keeps
exactly one row per reference timestamp, in order — nothing dropped, nothing
duplicated — and the composite CSV header is timestamp, min_lum, mean_lum,
max_lum, diff_lum, amp_rms, amp_peak, ebu_r128_M. -/
theorem c7_merge_preserves_rows (R : List ℚ) (lum amp loud : DF)
    (hmono : List.Pairwise (fun a b : ℚ => a < b) R)
    (hlumN : lum.valueNames = ["min_lum", "mean_lum", "max_lum", "diff_lum"])
    (hampN : amp.valueNames = ["amp_rms", "amp_peak"])
    (hloudN : loud.valueNames = ["ebu_r128_M"])
    (hlumR : lum.rows.map Prod.fst = R)
    (hampR : amp.rows.map Prod.fst = R)
    (hloudR : loud.rows.map Prod.fst = R) :
    (mergeOn (mergeOn lum amp) loud).rows.map Prod.fst = R ∧
    (mergeOn (mergeOn lum amp) loud).rows.length = R.length ∧
    csvHeader (mergeOn (mergeOn lum amp) loud) =
      ["timestamp", "min_lum", "mean_lum", "max_lum", "diff_lum",
       "amp_rms", "amp_peak", "ebu_r128_M"] := by
  have hnd : R.Nodup := List.Pairwise.imp (fun h => ne_of_lt h) hmono
  have h1 : (mergeOn lum amp).rows.map Prod.fst = R := mergeOn_keys _ _ _ hlumR hampR hnd
  have h2 : (mergeOn (mergeOn lum amp) loud).rows.map Prod.fst = R :=
    mergeOn_keys _ _ _ h1 hloudR hnd
  refine ⟨h2, ?_, ?_⟩
  · have := congrArg List.length h2
    simpa using this
  · simp [csvHeader, mergeOn, hlumN, hampN, hloudN]

/-- C7 witness: three concrete two-row frames over the reference timestamps
0, 1 merge into a two-row composite with the reference key column and the
eight-column header. -/
theorem c7_merge_preserves_rows_witness :
    (mergeOn (mergeOn
        { valueNames := ["min_lum", "mean_lum", "max_lum", "diff_lum"]
          rows := [(0, [1, 2, 3, 4]), (1, [5, 6, 7, 8])] }
        { valueNames := ["amp_rms", "amp_peak"]
          rows := [(0, [9, 10]), (1, [11, 12])] })
        { valueNames := ["ebu_r128_M"]
          rows := [(0, [13]), (1, [14])] }).rows.map Prod.fst = [0, 1] ∧
    (mergeOn (mergeOn
        { valueNames := ["min_lum", "mean_lum", "max_lum", "diff_lum"]
          rows := [(0, [1, 2, 3, 4]), (1, [5, 6, 7, 8])] }
        { valueNames := ["amp_rms", "amp_peak"]
          rows := [(0, [9, 10]), (1, [11, 12])] })
        { valueNames := ["ebu_r128_M"]
          rows := [(0, [13]), (1, [14])] }).rows.length = ([0, 1] : List ℚ).length ∧
    csvHeader (mergeOn (mergeOn
        { valueNames := ["min_lum", "mean_lum", "max_lum", "diff_lum"]
          rows := [(0, [1, 2, 3, 4]), (1, [5, 6, 7, 8])] }
        { valueNames := ["amp_rms", "amp_peak"]
          rows := [(0, [9, 10]), (1, [11, 12])] })
        { valueNames := ["ebu_r128_M"]
          rows := [(0, [13]), (1, [14])] }) =
      ["timestamp", "min_lum", "mean_lum", "max_lum", "diff_lum",
       "amp_rms", "amp_peak", "ebu_r128_M"] :=
  c7_merge_preserves_rows [0, 1]
    { valueNames := ["min_lum", "mean_lum", "max_lum", "diff_lum"]
      rows := [(0, [1, 2, 3, 4]), (1, [5, 6, 7, 8])] }
    { valueNames := ["amp_rms", "amp_peak"]
      rows := [(0, [9, 10]), (1, [11, 12])] }
    { valueNames := ["ebu_r128_M"]
      rows := [(0, [13]), (1, [14])] }
    (by norm_num [List.pairwise_cons]) rfl rfl rfl rfl rfl rfl

/-- C8: the script's entry block parses the command line but never calls
`main`, so an invocation with a valid input directory writes nothing at all,
while `main` itself would have written one composite CSV and one chart image
per stimulus into the output directory — the claimed per-stimulus outputs are
never produced. -/
theorem c8_script_performs_no_writes :
    scriptWrites ["--data_dir", "data"] = [] ∧
    mainWrites ("./out") =
      ["./out/BangBangYouAreDead_composite_frame_level_analysis.csv",
       "./out/BangBangYouAreDead_composite_time_series.png",
       "./out/StoryCorps_Q&A_composite_frame_level_analysis.csv",
       "./out/StoryCorps_Q&A_composite_time_series.png"] := ⟨rfl, rfl⟩

/-- C9: for every subject identifier and every stimulus string other than the
two fixed literals, the EEG loader fails with its unknown-stimulus error, and
its file-access trace is empty — the raise happens before any file is
touched. -/
theorem c9_unknown_stimulus_error (subject_id : ℕ) (stimulus : String)
    (h1 : stimulus ≠ "StoryCorps_Q&A") (h2 : stimulus ≠ "BangBangYouAreDead") :
    load_eeg subject_id stimulus =
      (Except.error LoadEegError.invalidStimulusName, []) := by
  unfold load_eeg
  rw [if_neg h1, if_neg h2]

/-- C9 witness: the stimulus string StoryCorps (missing the Q and A suffix) is
neither fixed literal, and the loader errors with an empty access trace. -/
theorem c9_unknown_stimulus_error_witness :
    load_eeg 3 ("StoryCorps") =
      (Except.error LoadEegError.invalidStimulusName, []) :=
  c9_unknown_stimulus_error 3 ("StoryCorps") (by decide) (by decide)

/-- C10: a secondary series with exactly one sample per column is accepted,
and the resampler returns that sample's value constantly at every reference
timestamp, for each requested value column, without error. -/
theorem c10_single_sample_constant (R : List ℚ) (t0 : ℚ) (vs : List ℚ) :
    load_and_interpolate_to_reference R
        { timestamps := [t0], columns := vs.map (fun v => [v]) } vs.length =
      Except.ok { timestamps := R, columns := vs.map (fun v => R.map (fun _ => v)) } := by
  unfold load_and_interpolate_to_reference
  rw [if_neg (by simp), if_neg (by simp)]
  rw [Except.ok.injEq]
  congr 1
  rw [List.map_map]
  apply List.map_congr_left
  intro v hv
  simp only [Function.comp]
  apply List.map_congr_left
  intro t ht
  rfl

end ISC
